import Mathlib

/-
Shallow embedding of the physics integration core of the
Funweb-Electro-Simulation repository (src/utils/Vector2.ts,
src/classes/ChargedObject.ts, src/constants.ts), together with theorems
settling the frozen claims about it.  JavaScript numbers are modelled as
exact reals.
-/

noncomputable section

/-- Vector2 from src/utils/Vector2.ts: a 2D value with x and y components. -/
@[ext]
structure Vector2 where
  x : ℝ
  y : ℝ

/-- Vector2.zero: the zero vector. -/
def Vector2.zero : Vector2 := ⟨0, 0⟩

/-- Vector2.add. -/
def Vector2.add (v w : Vector2) : Vector2 := ⟨v.x + w.x, v.y + w.y⟩

/-- Vector2.subtract. -/
def Vector2.subtract (v w : Vector2) : Vector2 := ⟨v.x - w.x, v.y - w.y⟩

/-- Vector2.multiply (by a scalar). -/
def Vector2.multiply (v : Vector2) (scalar : ℝ) : Vector2 := ⟨v.x * scalar, v.y * scalar⟩

/-- Vector2.magnitude: sqrt of x*x + y*y, as in the source. -/
def Vector2.magnitude (v : Vector2) : ℝ := Real.sqrt (v.x * v.x + v.y * v.y)

/-- Vector2.normalize: returns the zero vector when the magnitude is zero
(the source's division-by-zero guard), otherwise divides both components
by the magnitude. -/
def Vector2.normalize (v : Vector2) : Vector2 :=
  if v.magnitude = 0 then Vector2.zero else ⟨v.x / v.magnitude, v.y / v.magnitude⟩

/-- Vector2.distanceTo: Euclidean distance between two points, as in the source. -/
def Vector2.distanceTo (v w : Vector2) : ℝ :=
  Real.sqrt ((v.x - w.x) * (v.x - w.x) + (v.y - w.y) * (v.y - w.y))

/-- Componentwise negation; this is the spec's notion of the exact
negation of a force vector (the source writes multiply by -1). -/
def Vector2.neg (v : Vector2) : Vector2 := ⟨-v.x, -v.y⟩

/-- PHYSICS_CONSTANTS.K_COULOMB from src/constants.ts. -/
def K_COULOMB : ℝ := 20000

/-- PHYSICS_CONSTANTS.MIN_DISTANCE from src/constants.ts. -/
def MIN_DISTANCE : ℝ := 60

/-- PHYSICS_CONSTANTS.MAX_TRAIL_LENGTH from src/constants.ts. -/
def MAX_TRAIL_LENGTH : ℕ := 50

/-- PHYSICS_CONSTANTS.TRAIL_UPDATE_FREQ from src/constants.ts. -/
def TRAIL_UPDATE_FREQ : ℕ := 5

/-- ChargedObject from src/classes/ChargedObject.ts: one charged particle.
trailTimer is the private per-particle trail sampling counter. -/
structure ChargedObject where
  id : String
  position : Vector2
  velocity : Vector2
  acceleration : Vector2
  mass : ℝ
  charge : ℝ
  radius : ℝ
  isLocked : Bool
  trail : List Vector2
  trailTimer : ℕ

/-- ChargedObject.applyForce: no-op when locked, otherwise accumulates
force / mass into the acceleration. -/
def ChargedObject.applyForce (o : ChargedObject) (force : Vector2) : ChargedObject :=
  if o.isLocked then o
  else { o with acceleration := o.acceleration.add (force.multiply (1 / o.mass)) }

/-- ChargedObject.updatePhysics: when locked, zero velocity and
acceleration and return; otherwise apply the friction decay factor,
semi-implicit Euler integration, acceleration reset, and trail sampling
(push the new position every TRAIL_UPDATE_FREQ calls, dropping the
oldest entry when the trail exceeds MAX_TRAIL_LENGTH). -/
def ChargedObject.updatePhysics (o : ChargedObject) (dt friction : ℝ) : ChargedObject :=
  if o.isLocked then
    { o with velocity := Vector2.zero, acceleration := Vector2.zero }
  else
    let frictionFactor := max 0 (1 - friction * dt * 60)
    let v1 := o.velocity.multiply frictionFactor
    let v2 := v1.add (o.acceleration.multiply dt)
    let p := o.position.add (v2.multiply dt)
    let t := o.trailTimer + 1
    if t ≥ TRAIL_UPDATE_FREQ then
      let pushed := o.trail ++ [p]
      let tr := if pushed.length > MAX_TRAIL_LENGTH then pushed.tail else pushed
      { o with position := p, velocity := v2, acceleration := Vector2.zero,
               trail := tr, trailTimer := 0 }
    else
      { o with position := p, velocity := v2, acceleration := Vector2.zero,
               trailTimer := t }

/-- ChargedObject.reset: place at (x, y), zero velocity and acceleration,
clear the trail.  The source does not touch trailTimer here. -/
def ChargedObject.reset (o : ChargedObject) (x y : ℝ) : ChargedObject :=
  { o with position := ⟨x, y⟩, velocity := Vector2.zero,
           acceleration := Vector2.zero, trail := [] }

/-- Canvas bounds of the engine (the source's bounds object with width and height). -/
structure CanvasBounds where
  width : ℝ
  height : ℝ

/-- PhysicsEngine state from src/classes/ChargedObject.ts. -/
structure PhysicsEngine where
  objects : List ChargedObject
  friction : ℝ
  bounds : CanvasBounds

/-- Clamped pair distance used in PhysicsEngine.update: the magnitude of
B.position - A.position, floored at MIN_DISTANCE. -/
def clampedDist (objA objB : ChargedObject) : ℝ :=
  max ((objB.position.subtract objA.position).magnitude) MIN_DISTANCE

/-- Pair force magnitude used in PhysicsEngine.update:
K * abs(q1 * q2) / dist^2 with the clamped distance. -/
def forceMag (objA objB : ChargedObject) : ℝ :=
  K_COULOMB * |objA.charge * objB.charge| / (clampedDist objA objB * clampedDist objA objB)

/-- Force on A from the pair (A, B) in PhysicsEngine.update: along the
normalized direction from A to B, positive for attraction (qProduct < 0),
negative for repulsion (qProduct > 0), zero when qProduct is zero. -/
def pairForceOnA (objA objB : ChargedObject) : Vector2 :=
  let dir := (objB.position.subtract objA.position).normalize
  let qProduct := objA.charge * objB.charge
  if qProduct < 0 then dir.multiply (forceMag objA objB)
  else if qProduct > 0 then dir.multiply (-(forceMag objA objB))
  else Vector2.zero

/-- Force on B for the pair (A, B): the source computes forceOnA.multiply(-1). -/
def pairForceOnB (objA objB : ChargedObject) : Vector2 :=
  (pairForceOnA objA objB).multiply (-1)

/-- One iteration of the inner force loop body: read objects i and j from
the current list, apply the pair forces to both. -/
def pairStep (objs : List ChargedObject) (i j : ℕ) : List ChargedObject :=
  match objs.get? i, objs.get? j with
  | some objA, some objB =>
      (objs.set i (objA.applyForce (pairForceOnA objA objB))).set j
        (objB.applyForce (pairForceOnB objA objB))
  | _, _ => objs

/-- Index pairs (i, j) with i < j < n, in the source's double-loop order. -/
def pairIndices (n : ℕ) : List (ℕ × ℕ) :=
  (List.range n).flatMap (fun i => ((List.range n).filter (fun j => i < j)).map (fun j => (i, j)))

/-- The force pass of PhysicsEngine.update: fold the pair loop body over
all index pairs. -/
def forcePass (objs : List ChargedObject) : List ChargedObject :=
  (pairIndices objs.length).foldl (fun acc ij => pairStep acc ij.1 ij.2) objs

/-- PhysicsEngine.resolveBounds: clamp the object inside the canvas with
padding equal to its radius, inverting (with 50 percent loss) any velocity
component still pointing into the violated wall. -/
def resolveBounds (bounds : CanvasBounds) (o : ChargedObject) : ChargedObject :=
  let padding := o.radius
  let px :=
    if o.position.x < padding then padding
    else if o.position.x > bounds.width - padding then bounds.width - padding
    else o.position.x
  let vx :=
    if o.position.x < padding then
      (if o.velocity.x < 0 then o.velocity.x * (-0.5) else o.velocity.x)
    else if o.position.x > bounds.width - padding then
      (if o.velocity.x > 0 then o.velocity.x * (-0.5) else o.velocity.x)
    else o.velocity.x
  let py :=
    if o.position.y < padding then padding
    else if o.position.y > bounds.height - padding then bounds.height - padding
    else o.position.y
  let vy :=
    if o.position.y < padding then
      (if o.velocity.y < 0 then o.velocity.y * (-0.5) else o.velocity.y)
    else if o.position.y > bounds.height - padding then
      (if o.velocity.y > 0 then o.velocity.y * (-0.5) else o.velocity.y)
    else o.velocity.y
  { o with position := ⟨px, py⟩, velocity := ⟨vx, vy⟩ }

/-- PhysicsEngine.update: run the force pass, then integrate each object
and resolve its bounds. -/
def PhysicsEngine.update (e : PhysicsEngine) (dt : ℝ) : PhysicsEngine :=
  { e with objects :=
      (forcePass e.objects).map (fun o => resolveBounds e.bounds (o.updatePhysics dt e.friction)) }

/-- Midpoint of the first two objects, used by PhysicsEngine.setDistance. -/
def sepCenter (objA objB : ChargedObject) : Vector2 :=
  (objA.position.add objB.position).multiply 0.5

/-- Direction used by PhysicsEngine.setDistance: the normalized vector
from A to B, replaced by the horizontal unit vector when its magnitude is
zero. -/
def sepDir (objA objB : ChargedObject) : Vector2 :=
  let dir0 := (objB.position.subtract objA.position).normalize
  if dir0.magnitude = 0 then ⟨1, 0⟩ else dir0

/-- PhysicsEngine.setDistance: reposition the first two objects
symmetrically about their midpoint at distance dist along the current
alignment, zero their velocities and accelerations, then resolve bounds
on both.  No-op with fewer than two objects. -/
def PhysicsEngine.setDistance (e : PhysicsEngine) (dist : ℝ) : PhysicsEngine :=
  match e.objects with
  | objA :: objB :: rest =>
      let halfDist := dist / 2
      let objA1 := { objA with
        position := (sepCenter objA objB).subtract ((sepDir objA objB).multiply halfDist),
        velocity := Vector2.zero, acceleration := Vector2.zero }
      let objB1 := { objB with
        position := (sepCenter objA objB).add ((sepDir objA objB).multiply halfDist),
        velocity := Vector2.zero, acceleration := Vector2.zero }
      { e with objects := resolveBounds e.bounds objA1 :: resolveBounds e.bounds objB1 :: rest }
  | _ => e

/-- Iterated updatePhysics over a list of (dt, friction) parameters. -/
def updFold (o : ChargedObject) (ps : List (ℝ × ℝ)) : ChargedObject :=
  ps.foldl (fun a p => a.updatePhysics p.1 p.2) o

/-- Membership of an object's position inside the padded canvas box. -/
def inBoundsP (bounds : CanvasBounds) (r : ℝ) (p : Vector2) : Prop :=
  r ≤ p.x ∧ p.x ≤ bounds.width - r ∧ r ≤ p.y ∧ p.y ≤ bounds.height - r

/-- The boundary invariant for one object. -/
def inBoundsObj (bounds : CanvasBounds) (o : ChargedObject) : Prop :=
  inBoundsP bounds o.radius o.position

/-! Helper lemmas about Vector2. -/

lemma Vector2.magnitude_nonneg (v : Vector2) : 0 ≤ v.magnitude :=
  Real.sqrt_nonneg _

lemma Vector2.magnitude_eq_zero_iff (v : Vector2) : v.magnitude = 0 ↔ v.x = 0 ∧ v.y = 0 := by
  unfold Vector2.magnitude
  rw [Real.sqrt_eq_zero (add_nonneg (mul_self_nonneg _) (mul_self_nonneg _))]
  constructor
  · intro h
    constructor <;> nlinarith [sq_nonneg v.x, sq_nonneg v.y]
  · rintro ⟨hx, hy⟩
    rw [hx, hy]; ring

lemma Vector2.mul_self_magnitude (v : Vector2) :
    v.magnitude * v.magnitude = v.x * v.x + v.y * v.y :=
  Real.mul_self_sqrt (add_nonneg (mul_self_nonneg _) (mul_self_nonneg _))

lemma Vector2.magnitude_normalize_of_ne (v : Vector2) (hv : v.magnitude ≠ 0) :
    v.normalize.magnitude = 1 := by
  have hq : v.x * v.x + v.y * v.y = v.magnitude * v.magnitude :=
    (Vector2.mul_self_magnitude v).symm
  unfold Vector2.normalize
  rw [if_neg hv]
  show Real.sqrt (v.x / v.magnitude * (v.x / v.magnitude)
    + v.y / v.magnitude * (v.y / v.magnitude)) = 1
  have hone : v.x / v.magnitude * (v.x / v.magnitude)
      + v.y / v.magnitude * (v.y / v.magnitude) = 1 := by
    field_simp
    linear_combination hq
  rw [hone, Real.sqrt_one]

lemma Vector2.normalize_of_magnitude_eq_zero (v : Vector2) (hv : v.magnitude = 0) :
    v.normalize = Vector2.zero := by
  unfold Vector2.normalize
  rw [if_pos hv]

lemma Vector2.magnitude_zero : (Vector2.zero).magnitude = 0 := by
  unfold Vector2.magnitude Vector2.zero
  simp

lemma Vector2.magnitude_multiply (v : Vector2) (c : ℝ) :
    (v.multiply c).magnitude = |c| * v.magnitude := by
  unfold Vector2.magnitude Vector2.multiply
  simp only
  rw [show v.x * c * (v.x * c) + v.y * c * (v.y * c) = c ^ 2 * (v.x * v.x + v.y * v.y) by ring,
    Real.sqrt_mul (sq_nonneg c), Real.sqrt_sq_eq_abs]

lemma Vector2.distanceTo_eq_magnitude_subtract (v w : Vector2) :
    v.distanceTo w = (w.subtract v).magnitude := by
  unfold Vector2.distanceTo Vector2.magnitude Vector2.subtract
  simp only
  congr 1
  ring

lemma magnitude_subtract_ne_zero (p q : Vector2) (h : p ≠ q) :
    (q.subtract p).magnitude ≠ 0 := by
  rw [Ne, Vector2.magnitude_eq_zero_iff]
  rintro ⟨hx, hy⟩
  apply h
  have hx' : q.x - p.x = 0 := hx
  have hy' : q.y - p.y = 0 := hy
  ext
  · linarith
  · linarith

lemma clampedDist_ge (objA objB : ChargedObject) : MIN_DISTANCE ≤ clampedDist objA objB :=
  le_max_right _ _

lemma forceMag_pos (objA objB : ChargedObject) (h : objA.charge * objB.charge ≠ 0) :
    0 < forceMag objA objB := by
  unfold forceMag
  apply div_pos
  · exact mul_pos (show (0:ℝ) < K_COULOMB by unfold K_COULOMB; norm_num) (abs_pos.mpr h)
  · have h60 : (0:ℝ) < MIN_DISTANCE := by unfold MIN_DISTANCE; norm_num
    have hge := clampedDist_ge objA objB
    nlinarith

/-- C1: for a pair of particles at distinct positions, a negative charge
product gives a force on A that is a positive multiple of the unit vector
from A to B, a positive charge product gives a negative multiple of that
unit vector, and a zero charge product gives exactly the zero vector; the
direction used is genuinely a unit vector. -/
theorem force_direction (objA objB : ChargedObject)
    (hpos : objA.position ≠ objB.position) :
    ((objB.position.subtract objA.position).normalize).magnitude = 1 ∧
    (objA.charge * objB.charge < 0 → ∃ c : ℝ, 0 < c ∧
      pairForceOnA objA objB
        = ((objB.position.subtract objA.position).normalize).multiply c) ∧
    (0 < objA.charge * objB.charge → ∃ c : ℝ, 0 < c ∧
      pairForceOnA objA objB
        = ((objB.position.subtract objA.position).normalize).multiply (-c)) ∧
    (objA.charge * objB.charge = 0 → pairForceOnA objA objB = Vector2.zero) := by
  have hmag := Vector2.magnitude_normalize_of_ne _ (magnitude_subtract_ne_zero _ _ hpos)
  refine ⟨hmag, ?_, ?_, ?_⟩
  · intro hq
    refine ⟨forceMag objA objB, forceMag_pos objA objB (ne_of_lt hq), ?_⟩
    simp only [pairForceOnA]
    rw [if_pos hq]
  · intro hq
    refine ⟨forceMag objA objB, forceMag_pos objA objB (ne_of_gt hq), ?_⟩
    simp only [pairForceOnA]
    rw [if_neg (not_lt_of_gt hq), if_pos hq]
  · intro hq
    simp only [pairForceOnA]
    rw [if_neg (by rw [hq]; exact lt_irrefl 0), if_neg (by rw [hq]; exact lt_irrefl 0)]

def oW1A : ChargedObject :=
  { id := "a1", position := ⟨0, 0⟩, velocity := ⟨0, 0⟩, acceleration := ⟨0, 0⟩,
    mass := 1, charge := 5, radius := 22, isLocked := false, trail := [], trailTimer := 0 }

def oW1B : ChargedObject :=
  { id := "b1", position := ⟨100, 0⟩, velocity := ⟨0, 0⟩, acceleration := ⟨0, 0⟩,
    mass := 1, charge := -5, radius := 22, isLocked := false, trail := [], trailTimer := 0 }

/-- C1 witness: concrete opposite charges at distinct positions. -/
theorem force_direction_witness :
    oW1A.position ≠ oW1B.position ∧
    (oW1A.charge * oW1B.charge < 0 → ∃ c : ℝ, 0 < c ∧
      pairForceOnA oW1A oW1B
        = ((oW1B.position.subtract oW1A.position).normalize).multiply c) := by
  have hne : oW1A.position ≠ oW1B.position := by
    intro hc
    have hx : (0:ℝ) = 100 := congrArg Vector2.x hc
    norm_num at hx
  exact ⟨hne, (force_direction oW1A oW1B hne).2.1⟩

/-- C2: the force applied to B is the exact componentwise negation of the
force applied to A, for every pair of particles. -/
theorem newton_third_law (objA objB : ChargedObject) :
    pairForceOnB objA objB = Vector2.neg (pairForceOnA objA objB) := by
  ext
  · show (pairForceOnA objA objB).x * (-1) = -(pairForceOnA objA objB).x
    ring
  · show (pairForceOnA objA objB).y * (-1) = -(pairForceOnA objA objB).y
    ring

/-- C4: a locked particle ignores applyForce, and updatePhysics zeroes
its velocity and acceleration while leaving its position unchanged. -/
theorem locked_particle_pinned (o : ChargedObject) (h : o.isLocked = true)
    (force : Vector2) (dt friction : ℝ) :
    o.applyForce force = o ∧
    (o.updatePhysics dt friction).velocity = Vector2.zero ∧
    (o.updatePhysics dt friction).acceleration = Vector2.zero ∧
    (o.updatePhysics dt friction).position = o.position := by
  unfold ChargedObject.applyForce ChargedObject.updatePhysics
  rw [h]
  simp

def oW4 : ChargedObject :=
  { id := "w4", position := ⟨100, 100⟩, velocity := ⟨3, 4⟩, acceleration := ⟨1, 2⟩,
    mass := 1, charge := 5, radius := 22, isLocked := true, trail := [], trailTimer := 0 }

/-- C4 witness: a concrete locked particle under a nonzero force. -/
theorem locked_particle_pinned_witness :
    oW4.isLocked = true ∧
    (oW4.applyForce ⟨7, 8⟩ = oW4 ∧
     (oW4.updatePhysics 1 0).velocity = Vector2.zero ∧
     (oW4.updatePhysics 1 0).acceleration = Vector2.zero ∧
     (oW4.updatePhysics 1 0).position = oW4.position) :=
  ⟨rfl, locked_particle_pinned oW4 rfl ⟨7, 8⟩ 1 0⟩

/-- C7 (amended): reset sets the position, zeroes velocity and
acceleration, clears the trail, and leaves the trail-sampling counter
unchanged. -/
theorem reset_spec (o : ChargedObject) (x y : ℝ) :
    (o.reset x y).position = ⟨x, y⟩ ∧ (o.reset x y).velocity = Vector2.zero ∧
    (o.reset x y).acceleration = Vector2.zero ∧ (o.reset x y).trail = [] ∧
    (o.reset x y).trailTimer = o.trailTimer :=
  ⟨rfl, rfl, rfl, rfl, rfl⟩

lemma updatePhysics_timer_lt (o : ChargedObject) (dt friction : ℝ)
    (hL : o.isLocked = false) (ht : o.trailTimer + 1 < TRAIL_UPDATE_FREQ) :
    (o.updatePhysics dt friction).trailTimer = o.trailTimer + 1 ∧
    (o.updatePhysics dt friction).isLocked = false ∧
    (o.updatePhysics dt friction).trail = o.trail := by
  simp only [ChargedObject.updatePhysics, hL, Bool.false_eq_true, if_false]
  rw [if_neg (by omega)]
  exact ⟨rfl, rfl, rfl⟩

def oW7 : ChargedObject :=
  { id := "w7", position := ⟨0, 0⟩, velocity := ⟨0, 0⟩, acceleration := ⟨0, 0⟩,
    mass := 1, charge := 0, radius := 22, isLocked := false, trail := [], trailTimer := 0 }

/-- C7 counterexample: after three integration steps the sampling counter
is 3, and reset leaves it at 3 instead of zeroing it. -/
theorem reset_keeps_timer_cex :
    ((((oW7.updatePhysics 1 0).updatePhysics 1 0).updatePhysics 1 0).reset 0 0).trailTimer ≠ 0 := by
  obtain ⟨t1, l1, -⟩ := updatePhysics_timer_lt oW7 1 0 rfl (by decide)
  obtain ⟨t2, l2, -⟩ := updatePhysics_timer_lt (oW7.updatePhysics 1 0) 1 0 l1
    (by rw [t1]; decide)
  obtain ⟨t3, l3, -⟩ := updatePhysics_timer_lt ((oW7.updatePhysics 1 0).updatePhysics 1 0) 1 0 l2
    (by rw [t2, t1]; decide)
  have hr : ((((oW7.updatePhysics 1 0).updatePhysics 1 0).updatePhysics 1 0).reset 0 0).trailTimer
      = (((oW7.updatePhysics 1 0).updatePhysics 1 0).updatePhysics 1 0).trailTimer := rfl
  rw [hr, t3, t2, t1]
  decide

/-- C8: for charges at distance below MIN_DISTANCE the force magnitude
equals its value at distance exactly MIN_DISTANCE, and for any positions
of the same charges the magnitude never exceeds that value. -/
theorem forceMag_clamp (objA objB : ChargedObject)
    (h : objA.position.distanceTo objB.position < MIN_DISTANCE) :
    forceMag objA objB
      = K_COULOMB * |objA.charge * objB.charge| / (MIN_DISTANCE * MIN_DISTANCE) ∧
    ∀ p q : Vector2,
      forceMag { objA with position := p } { objB with position := q }
        ≤ K_COULOMB * |objA.charge * objB.charge| / (MIN_DISTANCE * MIN_DISTANCE) := by
  have h60 : (0:ℝ) < MIN_DISTANCE := by unfold MIN_DISTANCE; norm_num
  constructor
  · unfold forceMag
    have hd : clampedDist objA objB = MIN_DISTANCE := by
      unfold clampedDist
      rw [Vector2.distanceTo_eq_magnitude_subtract] at h
      exact max_eq_right (le_of_lt h)
    rw [hd]
  · intro p q
    have hge : MIN_DISTANCE
        ≤ clampedDist { objA with position := p } { objB with position := q } :=
      le_max_right _ _
    have hDpos : 0 < clampedDist { objA with position := p } { objB with position := q } :=
      lt_of_lt_of_le h60 hge
    have hnum : 0 ≤ K_COULOMB * |objA.charge * objB.charge| := by
      unfold K_COULOMB; positivity
    unfold forceMag
    have hchg : ({ objA with position := p } : ChargedObject).charge
        * ({ objB with position := q } : ChargedObject).charge
        = objA.charge * objB.charge := rfl
    rw [hchg]
    rw [div_le_div_iff₀ (mul_pos hDpos hDpos) (mul_pos h60 h60)]
    have hMM : MIN_DISTANCE * MIN_DISTANCE
        ≤ clampedDist { objA with position := p } { objB with position := q }
          * clampedDist { objA with position := p } { objB with position := q } :=
      mul_le_mul hge hge (le_of_lt h60) (le_of_lt hDpos)
    exact mul_le_mul_of_nonneg_left hMM hnum

def oW8A : ChargedObject :=
  { id := "a8", position := ⟨0, 0⟩, velocity := ⟨0, 0⟩, acceleration := ⟨0, 0⟩,
    mass := 1, charge := 5, radius := 22, isLocked := false, trail := [], trailTimer := 0 }

def oW8B : ChargedObject :=
  { id := "b8", position := ⟨0, 0⟩, velocity := ⟨0, 0⟩, acceleration := ⟨0, 0⟩,
    mass := 1, charge := -5, radius := 22, isLocked := false, trail := [], trailTimer := 0 }

/-- C8 witness: coincident particles are closer than MIN_DISTANCE and the
clamped magnitude formula applies. -/
theorem forceMag_clamp_witness :
    oW8A.position.distanceTo oW8B.position < MIN_DISTANCE ∧
    forceMag oW8A oW8B
      = K_COULOMB * |oW8A.charge * oW8B.charge| / (MIN_DISTANCE * MIN_DISTANCE) := by
  have h : oW8A.position.distanceTo oW8B.position < MIN_DISTANCE := by
    show Real.sqrt ((0 - 0) * (0 - 0) + (0 - 0) * (0 - 0)) < MIN_DISTANCE
    rw [show ((0:ℝ) - 0) * (0 - 0) + (0 - 0) * (0 - 0) = 0 by ring, Real.sqrt_zero]
    unfold MIN_DISTANCE
    norm_num
  exact ⟨h, (forceMag_clamp oW8A oW8B h).1⟩

lemma updatePhysics_trail_ge (o : ChargedObject) (dt friction : ℝ)
    (hL : o.isLocked = false) (ht : o.trailTimer + 1 ≥ TRAIL_UPDATE_FREQ) :
    (o.updatePhysics dt friction).trailTimer = 0 ∧
    (o.updatePhysics dt friction).isLocked = false ∧
    ∃ v, (o.updatePhysics dt friction).position = v ∧
      (o.updatePhysics dt friction).trail
        = (if (o.trail ++ [v]).length > MAX_TRAIL_LENGTH then (o.trail ++ [v]).tail
           else o.trail ++ [v]) := by
  simp only [ChargedObject.updatePhysics, hL, Bool.false_eq_true, if_false]
  rw [if_pos ht]
  exact ⟨rfl, rfl, _, rfl, rfl⟩

lemma updatePhysics_trail_le (o : ChargedObject) (dt friction : ℝ)
    (h : o.trail.length ≤ MAX_TRAIL_LENGTH) :
    (o.updatePhysics dt friction).trail.length ≤ MAX_TRAIL_LENGTH := by
  cases hL : o.isLocked
  · by_cases ht : o.trailTimer + 1 ≥ TRAIL_UPDATE_FREQ
    · obtain ⟨-, -, v, -, htr⟩ := updatePhysics_trail_ge o dt friction hL ht
      rw [htr]
      by_cases hlen : (o.trail ++ [v]).length > MAX_TRAIL_LENGTH
      · rw [if_pos hlen]
        simp only [List.length_tail, List.length_append, List.length_cons,
          List.length_nil] at *
        omega
      · rw [if_neg hlen]
        omega
    · obtain ⟨-, -, htr⟩ := updatePhysics_timer_lt o dt friction hL (by omega)
      rw [htr]
      exact h
  · simp only [ChargedObject.updatePhysics, hL, if_true]
    exact h

lemma updatePhysics_trail_inv (o : ChargedObject) (dt friction : ℝ) (k : ℕ)
    (h1 : o.trailTimer = k % TRAIL_UPDATE_FREQ)
    (h2 : o.trail.length = min (k / TRAIL_UPDATE_FREQ) MAX_TRAIL_LENGTH)
    (hL : o.isLocked = false) :
    (o.updatePhysics dt friction).trailTimer = (k + 1) % TRAIL_UPDATE_FREQ ∧
    (o.updatePhysics dt friction).trail.length
      = min ((k + 1) / TRAIL_UPDATE_FREQ) MAX_TRAIL_LENGTH ∧
    (o.updatePhysics dt friction).isLocked = false := by
  have hT : TRAIL_UPDATE_FREQ = 5 := rfl
  have hM : MAX_TRAIL_LENGTH = 50 := rfl
  rw [hT] at h1
  rw [hT, hM] at h2
  rw [hT, hM]
  by_cases ht : o.trailTimer + 1 ≥ 5
  · obtain ⟨htm, hLk, v, -, htr⟩ := updatePhysics_trail_ge o dt friction hL (by rw [hT]; exact ht)
    refine ⟨?_, ?_, hLk⟩
    · rw [htm]; omega
    · rw [htr, hM]
      by_cases hlen : (o.trail ++ [v]).length > 50
      · rw [if_pos hlen]
        simp only [List.length_tail, List.length_append, List.length_cons,
          List.length_nil] at *
        omega
      · rw [if_neg hlen]
        simp only [List.length_append, List.length_cons, List.length_nil] at *
        omega
  · obtain ⟨htm, hLk, htr⟩ := updatePhysics_timer_lt o dt friction hL (by rw [hT]; omega)
    refine ⟨?_, ?_, hLk⟩
    · rw [htm, h1]; omega
    · rw [htr, h2]; omega

lemma updFold_trail_le (ps : List (ℝ × ℝ)) (o : ChargedObject)
    (h : o.trail.length ≤ MAX_TRAIL_LENGTH) :
    (updFold o ps).trail.length ≤ MAX_TRAIL_LENGTH := by
  induction ps generalizing o with
  | nil => exact h
  | cons p ps ih => exact ih _ (updatePhysics_trail_le o p.1 p.2 h)

lemma updFold_trail_inv (ps : List (ℝ × ℝ)) (o : ChargedObject) (k : ℕ)
    (h1 : o.trailTimer = k % TRAIL_UPDATE_FREQ)
    (h2 : o.trail.length = min (k / TRAIL_UPDATE_FREQ) MAX_TRAIL_LENGTH)
    (hL : o.isLocked = false) :
    (updFold o ps).trailTimer = (k + ps.length) % TRAIL_UPDATE_FREQ ∧
    (updFold o ps).trail.length
      = min ((k + ps.length) / TRAIL_UPDATE_FREQ) MAX_TRAIL_LENGTH := by
  induction ps generalizing o k with
  | nil => simpa using ⟨h1, h2⟩
  | cons p ps ih =>
    obtain ⟨a1, a2, a3⟩ := updatePhysics_trail_inv o p.1 p.2 k h1 h2 hL
    have hres := ih (o.updatePhysics p.1 p.2) (k + 1) a1 a2 a3
    have hk : k + (p :: ps).length = (k + 1) + ps.length := by
      simp [List.length_cons]; omega
    rw [hk]
    exact hres

lemma tail_append_singleton {A : Type} (l : List A) (v : A) (h : l ≠ []) :
    (l ++ [v]).tail = l.tail ++ [v] := by
  cases l with
  | nil => exact absurd rfl h
  | cons a t => rfl

lemma drop_tail_append {A : Type} (l t : List A) (v : A) (h : l ≠ []) (k : ℕ) :
    ((l ++ [v]).tail ++ t).drop k = (l ++ v :: t).drop (k + 1) := by
  cases l with
  | nil => exact absurd rfl h
  | cons a l2 =>
    show ((l2 ++ [v]) ++ t).drop k = ((a :: l2) ++ v :: t).drop (k + 1)
    rw [List.append_assoc, List.singleton_append]
    show (l2 ++ v :: t).drop k = (a :: (l2 ++ v :: t)).drop (k + 1)
    rw [List.drop_succ_cons]

/-- Specification-side trace of the positions sampled into the trail
during a run of updatePhysics calls: one entry per call on which the
sampling counter reaches TRAIL_UPDATE_FREQ, in call order, oldest first. -/
def sampleTrace : ChargedObject → List (ℝ × ℝ) → List Vector2
  | _, [] => []
  | o, p :: ps =>
      if o.isLocked = false ∧ o.trailTimer + 1 ≥ TRAIL_UPDATE_FREQ then
        (o.updatePhysics p.1 p.2).position :: sampleTrace (o.updatePhysics p.1 p.2) ps
      else sampleTrace (o.updatePhysics p.1 p.2) ps

lemma updFold_trail_fifo (ps : List (ℝ × ℝ)) (o : ChargedObject)
    (hL : o.isLocked = false) (h : o.trail.length ≤ MAX_TRAIL_LENGTH) :
    (updFold o ps).trail
      = (o.trail ++ sampleTrace o ps).drop
          (o.trail.length + (sampleTrace o ps).length - MAX_TRAIL_LENGTH) := by
  induction ps generalizing o with
  | nil =>
    show o.trail = (o.trail ++ sampleTrace o []).drop
      (o.trail.length + (sampleTrace o []).length - MAX_TRAIL_LENGTH)
    rw [show sampleTrace o [] = [] from rfl, List.append_nil]
    rw [show o.trail.length + ([] : List Vector2).length - MAX_TRAIL_LENGTH = 0 by
      simp only [List.length_nil]; omega]
    rw [List.drop_zero]
  | cons p ps ih =>
    have hstep : updFold o (p :: ps) = updFold (o.updatePhysics p.1 p.2) ps := rfl
    by_cases hc : o.trailTimer + 1 ≥ TRAIL_UPDATE_FREQ
    · have htrace : sampleTrace o (p :: ps)
          = (o.updatePhysics p.1 p.2).position :: sampleTrace (o.updatePhysics p.1 p.2) ps := by
        simp only [sampleTrace]
        rw [if_pos ⟨hL, hc⟩]
      obtain ⟨-, hL', v, hv, htr⟩ := updatePhysics_trail_ge o p.1 p.2 hL hc
      rw [hstep, htrace, hv]
      by_cases hcap : (o.trail ++ [v]).length > MAX_TRAIL_LENGTH
      · rw [if_pos hcap] at htr
        have hlen : o.trail.length = MAX_TRAIL_LENGTH := by
          simp only [List.length_append, List.length_cons, List.length_nil] at hcap
          omega
        have hlen' : (o.updatePhysics p.1 p.2).trail.length ≤ MAX_TRAIL_LENGTH := by
          rw [htr, List.length_tail]
          simp only [List.length_append, List.length_cons, List.length_nil]
          omega
        have ihr := ih (o.updatePhysics p.1 p.2) hL' hlen'
        rw [htr] at ihr
        rw [ihr]
        have hne : o.trail ≠ [] := by
          intro hnil
          rw [hnil] at hlen
          simp only [List.length_nil, MAX_TRAIL_LENGTH] at hlen
          omega
        rw [drop_tail_append _ _ _ hne]
        congr 1
        rw [List.length_tail]
        simp only [List.length_append, List.length_cons, List.length_nil]
        omega
      · rw [if_neg hcap] at htr
        have hlen' : (o.updatePhysics p.1 p.2).trail.length ≤ MAX_TRAIL_LENGTH := by
          rw [htr]
          simp only [List.length_append, List.length_cons, List.length_nil] at hcap ⊢
          omega
        have ihr := ih (o.updatePhysics p.1 p.2) hL' hlen'
        rw [htr] at ihr
        rw [ihr, List.append_assoc, List.singleton_append]
        congr 1
        simp only [List.length_append, List.length_cons, List.length_nil]
        omega
    · have htrace : sampleTrace o (p :: ps)
          = sampleTrace (o.updatePhysics p.1 p.2) ps := by
        simp only [sampleTrace]
        rw [if_neg (fun hand => hc hand.2)]
      obtain ⟨-, hL', htr⟩ := updatePhysics_timer_lt o p.1 p.2 hL (by omega)
      have ihr := ih (o.updatePhysics p.1 p.2) hL' (by rw [htr]; exact h)
      rw [hstep, htrace, ihr, htr]

/-- C6: the trail never exceeds 50 entries after any sequence of
integration calls; a position is appended only on the call where the
sampling counter reaches 5, at the end of the trail, with the oldest
(head) entry dropped first when the capacity of 50 would be exceeded;
and from a fresh sampling state the trail after n calls is exactly the
suffix of the in-order trace of sampled positions keeping the most
recent min (n / 5) 50 of them, the counter ending at n mod 5. -/
theorem trail_bound (o : ChargedObject) (ps : List (ℝ × ℝ))
    (h : o.trail.length ≤ MAX_TRAIL_LENGTH) :
    (updFold o ps).trail.length ≤ MAX_TRAIL_LENGTH ∧
    (∀ dt friction : ℝ, o.isLocked = false →
      (o.trailTimer + 1 < TRAIL_UPDATE_FREQ →
        (o.updatePhysics dt friction).trail = o.trail) ∧
      (o.trailTimer + 1 ≥ TRAIL_UPDATE_FREQ → o.trail.length < MAX_TRAIL_LENGTH →
        (o.updatePhysics dt friction).trail
          = o.trail ++ [(o.updatePhysics dt friction).position]) ∧
      (o.trailTimer + 1 ≥ TRAIL_UPDATE_FREQ → o.trail.length = MAX_TRAIL_LENGTH →
        (o.updatePhysics dt friction).trail
          = o.trail.tail ++ [(o.updatePhysics dt friction).position])) ∧
    (o.trail = [] → o.trailTimer = 0 → o.isLocked = false →
      (updFold o ps).trail.length = min (ps.length / TRAIL_UPDATE_FREQ) MAX_TRAIL_LENGTH ∧
      (updFold o ps).trailTimer = ps.length % TRAIL_UPDATE_FREQ ∧
      (updFold o ps).trail
        = (sampleTrace o ps).drop ((sampleTrace o ps).length - MAX_TRAIL_LENGTH)) := by
  refine ⟨updFold_trail_le ps o h, ?_, ?_⟩
  · intro dt friction hL
    refine ⟨?_, ?_, ?_⟩
    · intro ht
      exact (updatePhysics_timer_lt o dt friction hL ht).2.2
    · intro ht hlt
      obtain ⟨-, -, v, hv, htr⟩ := updatePhysics_trail_ge o dt friction hL ht
      rw [htr, if_neg (by
        simp only [List.length_append, List.length_cons, List.length_nil]
        omega), hv]
    · intro ht hlen
      obtain ⟨-, -, v, hv, htr⟩ := updatePhysics_trail_ge o dt friction hL ht
      have hne : o.trail ≠ [] := by
        intro hnil
        rw [hnil] at hlen
        simp only [List.length_nil, MAX_TRAIL_LENGTH] at hlen
        omega
      rw [htr, if_pos (by
        simp only [List.length_append, List.length_cons, List.length_nil]
        omega), tail_append_singleton _ _ hne, hv]
  · intro he htm hL
    obtain ⟨a1, a2⟩ := updFold_trail_inv ps o 0 (by rw [htm, Nat.zero_mod])
      (by rw [he]; simp) hL
    rw [Nat.zero_add] at a1 a2
    refine ⟨a2, a1, ?_⟩
    have hf := updFold_trail_fifo ps o hL (by rw [he]; simp)
    rw [he] at hf
    simpa using hf

def oW6 : ChargedObject :=
  { id := "w6", position := ⟨0, 0⟩, velocity := ⟨0, 0⟩, acceleration := ⟨0, 0⟩,
    mass := 1, charge := 0, radius := 22, isLocked := false, trail := [], trailTimer := 0 }

def psW6 : List (ℝ × ℝ) := List.replicate 6 (1, 0)

/-- C6 witness: a fresh particle through six integration steps. -/
theorem trail_bound_witness :
    oW6.trail.length ≤ MAX_TRAIL_LENGTH ∧ oW6.trail = [] ∧ oW6.trailTimer = 0 ∧
    oW6.isLocked = false ∧
    ((updFold oW6 psW6).trail.length = min (psW6.length / TRAIL_UPDATE_FREQ) MAX_TRAIL_LENGTH ∧
     (updFold oW6 psW6).trailTimer = psW6.length % TRAIL_UPDATE_FREQ ∧
     (updFold oW6 psW6).trail
       = (sampleTrace oW6 psW6).drop ((sampleTrace oW6 psW6).length - MAX_TRAIL_LENGTH)) :=
  ⟨by decide, rfl, rfl, rfl, (trail_bound oW6 psW6 (by decide)).2.2 rfl rfl rfl⟩

lemma applyForce_radius (o : ChargedObject) (f : Vector2) :
    (o.applyForce f).radius = o.radius := by
  unfold ChargedObject.applyForce
  split <;> rfl

lemma updatePhysics_radius (o : ChargedObject) (dt friction : ℝ) :
    (o.updatePhysics dt friction).radius = o.radius := by
  simp only [ChargedObject.updatePhysics]
  split
  · rfl
  · split <;> rfl

lemma resolveBounds_radius (bounds : CanvasBounds) (o : ChargedObject) :
    (resolveBounds bounds o).radius = o.radius := rfl

lemma resolveBounds_acceleration (bounds : CanvasBounds) (o : ChargedObject) :
    (resolveBounds bounds o).acceleration = o.acceleration := rfl

lemma pairStep_radius_pres (P : ℝ → Prop) (objs : List ChargedObject) (i j : ℕ)
    (h : ∀ o ∈ objs, P o.radius) : ∀ o ∈ pairStep objs i j, P o.radius := by
  intro o ho
  unfold pairStep at ho
  cases hA : objs.get? i with
  | none => simp only [hA] at ho; exact h o ho
  | some objA =>
    cases hB : objs.get? j with
    | none => simp only [hA, hB] at ho; exact h o ho
    | some objB =>
      simp only [hA, hB] at ho
      rcases List.mem_or_eq_of_mem_set ho with ho1 | rfl
      · rcases List.mem_or_eq_of_mem_set ho1 with ho2 | rfl
        · exact h o ho2
        · rw [applyForce_radius]; exact h _ (List.get?_mem hA)
      · rw [applyForce_radius]; exact h _ (List.get?_mem hB)

lemma foldl_pairStep_radius_pres (P : ℝ → Prop) (l : List (ℕ × ℕ))
    (objs : List ChargedObject) (h : ∀ o ∈ objs, P o.radius) :
    ∀ o ∈ l.foldl (fun acc ij => pairStep acc ij.1 ij.2) objs, P o.radius := by
  induction l generalizing objs with
  | nil => exact h
  | cons ij l ih => exact ih _ (pairStep_radius_pres P objs ij.1 ij.2 h)

lemma forcePass_radius_pres (P : ℝ → Prop) (objs : List ChargedObject)
    (h : ∀ o ∈ objs, P o.radius) : ∀ o ∈ forcePass objs, P o.radius :=
  foldl_pairStep_radius_pres P _ objs h

lemma resolveBounds_inBounds (bounds : CanvasBounds) (o : ChargedObject)
    (hw : 2 * o.radius ≤ bounds.width) (hh : 2 * o.radius ≤ bounds.height) :
    inBoundsObj bounds (resolveBounds bounds o) := by
  simp only [inBoundsObj, inBoundsP, resolveBounds]
  split_ifs <;>
    exact ⟨by linarith, by linarith, by linarith, by linarith⟩

lemma update_objects (e : PhysicsEngine) (dt : ℝ) :
    (e.update dt).objects
      = (forcePass e.objects).map
          (fun o => resolveBounds e.bounds (o.updatePhysics dt e.friction)) := rfl

lemma update_bounds (e : PhysicsEngine) (dt : ℝ) : (e.update dt).bounds = e.bounds := rfl

/-- Hypothesis that every particle's diameter fits inside the canvas. -/
def smallRadii (e : PhysicsEngine) : Prop :=
  ∀ o ∈ e.objects, 2 * o.radius ≤ e.bounds.width ∧ 2 * o.radius ≤ e.bounds.height

lemma update_inBounds (e : PhysicsEngine) (dt : ℝ) (hr : smallRadii e) :
    ∀ o ∈ (e.update dt).objects, inBoundsObj e.bounds o := by
  intro o ho
  rw [update_objects] at ho
  obtain ⟨y, hy, rfl⟩ := List.mem_map.mp ho
  have hrad := forcePass_radius_pres
    (fun r => 2 * r ≤ e.bounds.width ∧ 2 * r ≤ e.bounds.height) e.objects hr y hy
  refine resolveBounds_inBounds e.bounds _ ?_ ?_
  · rw [updatePhysics_radius]; exact hrad.1
  · rw [updatePhysics_radius]; exact hrad.2

lemma update_smallRadii (e : PhysicsEngine) (dt : ℝ) (hr : smallRadii e) :
    smallRadii (e.update dt) := by
  intro o ho
  rw [update_objects] at ho
  obtain ⟨y, hy, rfl⟩ := List.mem_map.mp ho
  have hrad := forcePass_radius_pres
    (fun r => 2 * r ≤ e.bounds.width ∧ 2 * r ≤ e.bounds.height) e.objects hr y hy
  rw [update_bounds, resolveBounds_radius, updatePhysics_radius]
  exact hrad

/-- C3 (amended): if every particle's diameter fits inside the bounds,
then after every step of any nonempty sequence of update calls each
particle's position lies within [radius, width - radius] horizontally and
[radius, height - radius] vertically. -/
theorem bounds_invariant (e : PhysicsEngine) (dt : ℝ) (dts : List ℝ)
    (hr : smallRadii e) :
    ∀ o ∈ (dts.foldl PhysicsEngine.update (e.update dt)).objects, inBoundsObj e.bounds o := by
  induction dts generalizing e dt with
  | nil => exact update_inBounds e dt hr
  | cons d dts ih =>
    have hres := ih (e.update dt) d (update_smallRadii e dt hr)
    rw [update_bounds] at hres
    exact hres

def oW3 : ChargedObject :=
  { id := "w3", position := ⟨100, 100⟩, velocity := ⟨0, 0⟩, acceleration := ⟨0, 0⟩,
    mass := 1, charge := 5, radius := 22, isLocked := false, trail := [], trailTimer := 0 }

def eW3 : PhysicsEngine :=
  { objects := [oW3], friction := 0.01, bounds := { width := 800, height := 600 } }

/-- C3 witness: one particle of radius 22 in an 800 by 600 canvas. -/
theorem bounds_invariant_witness :
    smallRadii eW3 ∧
    ∀ o ∈ (([] : List ℝ).foldl PhysicsEngine.update (eW3.update 1)).objects,
      inBoundsObj eW3.bounds o := by
  have hr : smallRadii eW3 := by
    intro o ho
    simp only [eW3, List.mem_singleton] at ho
    subst ho
    refine ⟨?_, ?_⟩ <;> norm_num [oW3, eW3]
  exact ⟨hr, bounds_invariant eW3 1 [] hr⟩

lemma updatePhysics_position_still (o : ChargedObject) (dt friction : ℝ)
    (hL : o.isLocked = false) (hv : o.velocity = Vector2.zero)
    (ha : o.acceleration = Vector2.zero) :
    (o.updatePhysics dt friction).position = o.position := by
  simp only [ChargedObject.updatePhysics, hL, Bool.false_eq_true, if_false, hv, ha]
  have hp : o.position.add
      ((((Vector2.zero).multiply (max 0 (1 - friction * dt * 60))).add
        ((Vector2.zero).multiply dt)).multiply dt) = o.position := by
    ext
    · show o.position.x + (0 * (max 0 (1 - friction * dt * 60)) + 0 * dt) * dt = o.position.x
      ring
    · show o.position.y + (0 * (max 0 (1 - friction * dt * 60)) + 0 * dt) * dt = o.position.y
      ring
  split <;> exact hp

lemma resolveBounds_position_x_low (bounds : CanvasBounds) (o : ChargedObject)
    (h : o.position.x < o.radius) :
    (resolveBounds bounds o).position.x = o.radius := by
  simp only [resolveBounds]
  rw [if_pos h]

def oC3 : ChargedObject :=
  { id := "c3", position := ⟨0, 0⟩, velocity := ⟨0, 0⟩, acceleration := ⟨0, 0⟩,
    mass := 1, charge := 0, radius := 22, isLocked := false, trail := [], trailTimer := 0 }

def eC3 : PhysicsEngine :=
  { objects := [oC3], friction := 0, bounds := { width := 10, height := 10 } }

/-- C3 counterexample: with a 10 by 10 canvas and a particle of radius 22
the claimed interval is empty, so after one step the position violates
x less-or-equal width minus radius. -/
theorem bounds_invariant_cex :
    ¬ ∀ o ∈ (eC3.update 0).objects, inBoundsObj eC3.bounds o := by
  intro hall
  have hpi : pairIndices ([oC3].length) = [] := by decide
  have hfp : forcePass [oC3] = [oC3] := by
    unfold forcePass
    rw [hpi]
    rfl
  have hobj : (eC3.update 0).objects
      = [resolveBounds eC3.bounds (oC3.updatePhysics 0 eC3.friction)] := by
    rw [update_objects]
    show (forcePass [oC3]).map _ = _
    rw [hfp]
    rfl
  have hmem : resolveBounds eC3.bounds (oC3.updatePhysics 0 eC3.friction)
      ∈ (eC3.update 0).objects := by
    rw [hobj]
    exact List.mem_singleton_self _
  obtain ⟨h1, h2, h3, h4⟩ := hall _ hmem
  have hpos : (oC3.updatePhysics 0 eC3.friction).position = oC3.position :=
    updatePhysics_position_still oC3 0 eC3.friction rfl rfl rfl
  have hx : (resolveBounds eC3.bounds (oC3.updatePhysics 0 eC3.friction)).position.x
      = (oC3.updatePhysics 0 eC3.friction).radius := by
    apply resolveBounds_position_x_low
    rw [hpos, updatePhysics_radius]
    show (0:ℝ) < 22
    norm_num
  rw [hx, updatePhysics_radius] at h2
  rw [resolveBounds_radius, updatePhysics_radius] at h2
  have hr22 : oC3.radius = 22 := rfl
  have hw10 : eC3.bounds.width = 10 := rfl
  rw [hr22, hw10] at h2
  norm_num at h2

lemma pairForceOnA_lock_invariant (objA objB : ChargedObject) (b : Bool) :
    pairForceOnA objA { objB with isLocked := b } = pairForceOnA objA objB := rfl

/-- C10: a locked particle still exerts force: in the force pass over a
pair the force applied to the unlocked first object is identical whether
or not the second object is locked. -/
theorem locked_still_emits (objA objB : ChargedObject)
    (_hA : objA.isLocked = false) (_hB : objB.isLocked = true) :
    (forcePass [objA, objB]).head?
      = (forcePass [objA, { objB with isLocked := false }]).head? := rfl

def oW10A : ChargedObject :=
  { id := "aX", position := ⟨0, 0⟩, velocity := ⟨0, 0⟩, acceleration := ⟨0, 0⟩,
    mass := 1, charge := 5, radius := 22, isLocked := false, trail := [], trailTimer := 0 }

def oW10B : ChargedObject :=
  { id := "bX", position := ⟨100, 0⟩, velocity := ⟨0, 0⟩, acceleration := ⟨0, 0⟩,
    mass := 1, charge := -5, radius := 22, isLocked := true, trail := [], trailTimer := 0 }

/-- C10 witness: a concrete unlocked particle paired with a locked one. -/
theorem locked_still_emits_witness :
    oW10A.isLocked = false ∧ oW10B.isLocked = true ∧
    (forcePass [oW10A, oW10B]).head?
      = (forcePass [oW10A, { oW10B with isLocked := false }]).head? :=
  ⟨rfl, rfl, locked_still_emits oW10A oW10B rfl rfl⟩

lemma sepDir_magnitude (objA objB : ChargedObject) : (sepDir objA objB).magnitude = 1 := by
  simp only [sepDir]
  by_cases h : ((objB.position.subtract objA.position).normalize).magnitude = 0
  · rw [if_pos h]
    show Real.sqrt (1 * 1 + 0 * 0) = 1
    rw [show (1:ℝ) * 1 + 0 * 0 = 1 by ring, Real.sqrt_one]
  · rw [if_neg h]
    by_cases hm : (objB.position.subtract objA.position).magnitude = 0
    · exact absurd
        (by rw [Vector2.normalize_of_magnitude_eq_zero _ hm]; exact Vector2.magnitude_zero) h
    · exact Vector2.magnitude_normalize_of_ne _ hm

lemma sepDir_coincident (objA objB : ChargedObject) (h : objA.position = objB.position) :
    sepDir objA objB = ⟨1, 0⟩ := by
  have hsub : (objB.position.subtract objA.position).magnitude = 0 := by
    rw [Vector2.magnitude_eq_zero_iff]
    constructor
    · show objB.position.x - objA.position.x = 0
      rw [h]; ring
    · show objB.position.y - objA.position.y = 0
      rw [h]; ring
  simp only [sepDir]
  rw [Vector2.normalize_of_magnitude_eq_zero _ hsub, if_pos Vector2.magnitude_zero]

lemma resolveBounds_of_inBounds (bounds : CanvasBounds) (o : ChargedObject)
    (h : inBoundsP bounds o.radius o.position) :
    (resolveBounds bounds o).position = o.position ∧
    (resolveBounds bounds o).velocity = o.velocity := by
  obtain ⟨h1, h2, h3, h4⟩ := h
  simp only [resolveBounds]
  refine ⟨?_, ?_⟩ <;> ext <;> split_ifs <;> first | rfl | linarith

/-- The intermediate object built inside setDistance: moved to p with
velocity and acceleration zeroed. -/
def repositioned (o : ChargedObject) (p : Vector2) : ChargedObject :=
  { o with position := p, velocity := Vector2.zero, acceleration := Vector2.zero }

/-- Target point for the first object in setDistance. -/
def sepPosA (objA objB : ChargedObject) (dist : ℝ) : Vector2 :=
  (sepCenter objA objB).subtract ((sepDir objA objB).multiply (dist / 2))

/-- Target point for the second object in setDistance. -/
def sepPosB (objA objB : ChargedObject) (dist : ℝ) : Vector2 :=
  (sepCenter objA objB).add ((sepDir objA objB).multiply (dist / 2))

lemma setDistance_objects (e : PhysicsEngine) (dist : ℝ) (objA objB : ChargedObject)
    (rest : List ChargedObject) (hobj : e.objects = objA :: objB :: rest) :
    (e.setDistance dist).objects
      = resolveBounds e.bounds (repositioned objA (sepPosA objA objB dist))
        :: resolveBounds e.bounds (repositioned objB (sepPosB objA objB dist))
        :: rest := by
  simp only [PhysicsEngine.setDistance, hobj, repositioned, sepPosA, sepPosB]

lemma repositioned_position (o : ChargedObject) (p : Vector2) :
    (repositioned o p).position = p := rfl

lemma repositioned_velocity (o : ChargedObject) (p : Vector2) :
    (repositioned o p).velocity = Vector2.zero := rfl

lemma repositioned_acceleration (o : ChargedObject) (p : Vector2) :
    (repositioned o p).acceleration = Vector2.zero := rfl

/-- C5 (amended): for nonnegative d, when both repositioned particles lie
inside the padded canvas (so the final resolveBounds pass does not move
them), setDistance makes the distance between the first two particles
exactly d and zeroes both particles' velocity and acceleration. -/
theorem setDistance_spec (e : PhysicsEngine) (d : ℝ) (objA objB : ChargedObject)
    (rest : List ChargedObject) (hobj : e.objects = objA :: objB :: rest) (hd : 0 ≤ d)
    (hA : inBoundsP e.bounds objA.radius (sepPosA objA objB d))
    (hB : inBoundsP e.bounds objB.radius (sepPosB objA objB d)) :
    ∃ objA1 objB1, (e.setDistance d).objects = objA1 :: objB1 :: rest ∧
      objA1.position.distanceTo objB1.position = d ∧
      objA1.velocity = Vector2.zero ∧ objA1.acceleration = Vector2.zero ∧
      objB1.velocity = Vector2.zero ∧ objB1.acceleration = Vector2.zero := by
  have hchar := setDistance_objects e d objA objB rest hobj
  have hqA := resolveBounds_of_inBounds e.bounds (repositioned objA (sepPosA objA objB d)) hA
  have hqB := resolveBounds_of_inBounds e.bounds (repositioned objB (sepPosB objA objB d)) hB
  refine ⟨_, _, hchar, ?_, ?_, ?_, ?_, ?_⟩
  · rw [hqA.1, hqB.1, repositioned_position, repositioned_position]
    have hu : (sepDir objA objB).x * (sepDir objA objB).x
        + (sepDir objA objB).y * (sepDir objA objB).y = 1 := by
      have hsm := sepDir_magnitude objA objB
      unfold Vector2.magnitude at hsm
      exact Real.sqrt_eq_one.mp hsm
    unfold Vector2.distanceTo sepPosA sepPosB
    have hx : ((sepCenter objA objB).subtract ((sepDir objA objB).multiply (d / 2))).x
        - ((sepCenter objA objB).add ((sepDir objA objB).multiply (d / 2))).x
        = -((sepDir objA objB).x * d) := by
      show (sepCenter objA objB).x - (sepDir objA objB).x * (d / 2)
          - ((sepCenter objA objB).x + (sepDir objA objB).x * (d / 2))
          = -((sepDir objA objB).x * d)
      ring
    have hy : ((sepCenter objA objB).subtract ((sepDir objA objB).multiply (d / 2))).y
        - ((sepCenter objA objB).add ((sepDir objA objB).multiply (d / 2))).y
        = -((sepDir objA objB).y * d) := by
      show (sepCenter objA objB).y - (sepDir objA objB).y * (d / 2)
          - ((sepCenter objA objB).y + (sepDir objA objB).y * (d / 2))
          = -((sepDir objA objB).y * d)
      ring
    rw [hx, hy, show -((sepDir objA objB).x * d) * -((sepDir objA objB).x * d)
        + -((sepDir objA objB).y * d) * -((sepDir objA objB).y * d)
        = d ^ 2 * ((sepDir objA objB).x * (sepDir objA objB).x
          + (sepDir objA objB).y * (sepDir objA objB).y) by ring, hu, mul_one,
      Real.sqrt_sq hd]
  · rw [hqA.2]; exact repositioned_velocity _ _
  · exact resolveBounds_acceleration e.bounds _
  · rw [hqB.2]; exact repositioned_velocity _ _
  · exact resolveBounds_acceleration e.bounds _

def oW5A : ChargedObject :=
  { id := "a5", position := ⟨400, 300⟩, velocity := ⟨0, 0⟩, acceleration := ⟨0, 0⟩,
    mass := 1, charge := 5, radius := 22, isLocked := false, trail := [], trailTimer := 0 }

def oW5B : ChargedObject :=
  { id := "b5", position := ⟨400, 300⟩, velocity := ⟨0, 0⟩, acceleration := ⟨0, 0⟩,
    mass := 1, charge := -5, radius := 22, isLocked := false, trail := [], trailTimer := 0 }

def eW5 : PhysicsEngine :=
  { objects := [oW5A, oW5B], friction := 0.01, bounds := { width := 800, height := 600 } }

/-- C5 witness: coincident particles at canvas center, requested
distance 100, both repositioned points inside the canvas. -/
theorem setDistance_spec_witness :
    eW5.objects = oW5A :: oW5B :: [] ∧ (0:ℝ) ≤ 100 ∧
    (∃ objA1 objB1, (eW5.setDistance 100).objects = objA1 :: objB1 :: ([] : List ChargedObject) ∧
      objA1.position.distanceTo objB1.position = 100 ∧
      objA1.velocity = Vector2.zero ∧ objA1.acceleration = Vector2.zero ∧
      objB1.velocity = Vector2.zero ∧ objB1.acceleration = Vector2.zero) := by
  have hdir : sepDir oW5A oW5B = ⟨1, 0⟩ := sepDir_coincident oW5A oW5B rfl
  have hcen : sepCenter oW5A oW5B = ⟨400, 300⟩ := by
    simp only [sepCenter, oW5A, oW5B, Vector2.add, Vector2.multiply]
    norm_num
  have hpA : sepPosA oW5A oW5B 100 = ⟨350, 300⟩ := by
    rw [sepPosA, hdir, hcen]
    simp only [Vector2.subtract, Vector2.multiply]
    norm_num
  have hpB : sepPosB oW5A oW5B 100 = ⟨450, 300⟩ := by
    rw [sepPosB, hdir, hcen]
    simp only [Vector2.add, Vector2.multiply]
    norm_num
  have hA : inBoundsP eW5.bounds oW5A.radius (sepPosA oW5A oW5B 100) := by
    rw [hpA]
    simp only [inBoundsP, eW5, oW5A]
    norm_num
  have hB : inBoundsP eW5.bounds oW5B.radius (sepPosB oW5A oW5B 100) := by
    rw [hpB]
    simp only [inBoundsP, eW5, oW5B]
    norm_num
  exact ⟨rfl, by norm_num, setDistance_spec eW5 100 oW5A oW5B [] rfl (by norm_num) hA hB⟩

lemma resolveBounds_clamp_low_x (bounds : CanvasBounds) (o : ChargedObject)
    (hx : o.position.x < o.radius)
    (hy1 : o.radius ≤ o.position.y) (hy2 : o.position.y ≤ bounds.height - o.radius) :
    (resolveBounds bounds o).position = ⟨o.radius, o.position.y⟩ := by
  simp only [resolveBounds]
  ext
  · rw [if_pos hx]
  · rw [if_pos hx, if_neg (by linarith), if_neg (by linarith)]

lemma resolveBounds_clamp_high_x (bounds : CanvasBounds) (o : ChargedObject)
    (hx0 : o.radius ≤ o.position.x) (hx : o.position.x > bounds.width - o.radius)
    (hy1 : o.radius ≤ o.position.y) (hy2 : o.position.y ≤ bounds.height - o.radius) :
    (resolveBounds bounds o).position = ⟨bounds.width - o.radius, o.position.y⟩ := by
  simp only [resolveBounds]
  ext
  · rw [if_neg (by linarith), if_pos hx]
  · rw [if_neg (by linarith), if_pos hx, if_neg (by linarith), if_neg (by linarith)]

lemma resolveBounds_clamp_low_y (bounds : CanvasBounds) (o : ChargedObject)
    (hx1 : o.radius ≤ o.position.x) (hx2 : o.position.x ≤ bounds.width - o.radius)
    (hy : o.position.y < o.radius) :
    (resolveBounds bounds o).position = ⟨o.position.x, o.radius⟩ := by
  simp only [resolveBounds]
  ext
  · rw [if_neg (by linarith), if_neg (by linarith)]
  · rw [if_neg (by linarith), if_neg (by linarith), if_pos hy]

def oC5A : ChargedObject :=
  { id := "ac", position := ⟨400, 300⟩, velocity := ⟨0, 0⟩, acceleration := ⟨0, 0⟩,
    mass := 1, charge := 5, radius := 22, isLocked := false, trail := [], trailTimer := 0 }

def oC5B : ChargedObject :=
  { id := "bc", position := ⟨400, 300⟩, velocity := ⟨0, 0⟩, acceleration := ⟨0, 0⟩,
    mass := 1, charge := -5, radius := 22, isLocked := false, trail := [], trailTimer := 0 }

def eC5 : PhysicsEngine :=
  { objects := [oC5A, oC5B], friction := 0.01, bounds := { width := 800, height := 600 } }

/-- C5 counterexample: requesting distance 2000 inside an 800 by 600
canvas: the final resolveBounds pass clamps both particles to x = 22 and
x = 778, so the resulting distance is 756, not 2000. -/
theorem setDistance_cex :
    ∃ objA1 objB1, (eC5.setDistance 2000).objects = objA1 :: objB1 :: ([] : List ChargedObject) ∧
      objA1.position.distanceTo objB1.position ≠ 2000 := by
  have hchar := setDistance_objects eC5 2000 oC5A oC5B [] rfl
  have hdir : sepDir oC5A oC5B = ⟨1, 0⟩ := sepDir_coincident oC5A oC5B rfl
  have hcen : sepCenter oC5A oC5B = ⟨400, 300⟩ := by
    simp only [sepCenter, oC5A, oC5B, Vector2.add, Vector2.multiply]
    norm_num
  have hpA : sepPosA oC5A oC5B 2000 = ⟨-600, 300⟩ := by
    rw [sepPosA, hdir, hcen]
    simp only [Vector2.subtract, Vector2.multiply]
    norm_num
  have hpB : sepPosB oC5A oC5B 2000 = ⟨1400, 300⟩ := by
    rw [sepPosB, hdir, hcen]
    simp only [Vector2.add, Vector2.multiply]
    norm_num
  rw [hpA, hpB] at hchar
  have hposA : (resolveBounds eC5.bounds (repositioned oC5A ⟨-600, 300⟩)).position
      = ⟨22, 300⟩ := by
    have hcl := resolveBounds_clamp_low_x eC5.bounds (repositioned oC5A ⟨-600, 300⟩)
      (by norm_num [repositioned, oC5A]) (by norm_num [repositioned, oC5A])
      (by norm_num [repositioned, oC5A, eC5])
    rw [hcl]
    norm_num [repositioned, oC5A]
  have hposB : (resolveBounds eC5.bounds (repositioned oC5B ⟨1400, 300⟩)).position
      = ⟨778, 300⟩ := by
    have hcl := resolveBounds_clamp_high_x eC5.bounds (repositioned oC5B ⟨1400, 300⟩)
      (by norm_num [repositioned, oC5B]) (by norm_num [repositioned, oC5B, eC5])
      (by norm_num [repositioned, oC5B]) (by norm_num [repositioned, oC5B, eC5])
    rw [hcl]
    norm_num [repositioned, oC5B, eC5]
  refine ⟨_, _, hchar, ?_⟩
  rw [hposA, hposB]
  have hval : (⟨22, 300⟩ : Vector2).distanceTo ⟨778, 300⟩ = 756 := by
    simp only [Vector2.distanceTo]
    rw [show ((22:ℝ) - 778) * (22 - 778) + (300 - 300) * (300 - 300) = 756 ^ 2 by norm_num,
      Real.sqrt_sq (by norm_num : (0:ℝ) ≤ 756)]
  rw [hval]
  norm_num

/-- C9 (amended): when the first two particles coincide and both
repositioned points lie inside the padded canvas, setDistance falls back
to the horizontal unit direction: the particles end at exactly
center - (d/2, 0) and center + (d/2, 0), so their separation vector is
exactly (d, 0). -/
theorem setDistance_coincident (e : PhysicsEngine) (d : ℝ) (objA objB : ChargedObject)
    (rest : List ChargedObject) (hobj : e.objects = objA :: objB :: rest)
    (hpos : objA.position = objB.position)
    (hA : inBoundsP e.bounds objA.radius ⟨objB.position.x - d / 2, objB.position.y⟩)
    (hB : inBoundsP e.bounds objB.radius ⟨objB.position.x + d / 2, objB.position.y⟩) :
    ∃ objA1 objB1, (e.setDistance d).objects = objA1 :: objB1 :: rest ∧
      objA1.position = ⟨objB.position.x - d / 2, objB.position.y⟩ ∧
      objB1.position = ⟨objB.position.x + d / 2, objB.position.y⟩ ∧
      objB1.position.subtract objA1.position = ⟨d, 0⟩ := by
  have hdir := sepDir_coincident objA objB hpos
  have hcen : sepCenter objA objB = objB.position := by
    unfold sepCenter
    rw [hpos]
    ext
    · show (objB.position.x + objB.position.x) * 0.5 = objB.position.x
      ring
    · show (objB.position.y + objB.position.y) * 0.5 = objB.position.y
      ring
  have hpA : sepPosA objA objB d = ⟨objB.position.x - d / 2, objB.position.y⟩ := by
    rw [sepPosA, hdir, hcen]
    ext
    · show objB.position.x - 1 * (d / 2) = objB.position.x - d / 2
      ring
    · show objB.position.y - 0 * (d / 2) = objB.position.y
      ring
  have hpB : sepPosB objA objB d = ⟨objB.position.x + d / 2, objB.position.y⟩ := by
    rw [sepPosB, hdir, hcen]
    ext
    · show objB.position.x + 1 * (d / 2) = objB.position.x + d / 2
      ring
    · show objB.position.y + 0 * (d / 2) = objB.position.y
      ring
  have hchar := setDistance_objects e d objA objB rest hobj
  have hA' : inBoundsP e.bounds objA.radius (sepPosA objA objB d) := by
    rw [hpA]; exact hA
  have hB' : inBoundsP e.bounds objB.radius (sepPosB objA objB d) := by
    rw [hpB]; exact hB
  have hqA := (resolveBounds_of_inBounds e.bounds
    (repositioned objA (sepPosA objA objB d)) hA').1
  have hqB := (resolveBounds_of_inBounds e.bounds
    (repositioned objB (sepPosB objA objB d)) hB').1
  rw [repositioned_position] at hqA hqB
  refine ⟨_, _, hchar, ?_, ?_, ?_⟩
  · rw [hqA, hpA]
  · rw [hqB, hpB]
  · rw [hqA, hqB, hpA, hpB]
    ext
    · show objB.position.x + d / 2 - (objB.position.x - d / 2) = d
      ring
    · show objB.position.y - objB.position.y = 0
      ring

def oW9A : ChargedObject :=
  { id := "a9", position := ⟨400, 300⟩, velocity := ⟨0, 0⟩, acceleration := ⟨0, 0⟩,
    mass := 1, charge := 5, radius := 22, isLocked := false, trail := [], trailTimer := 0 }

def oW9B : ChargedObject :=
  { id := "b9", position := ⟨400, 300⟩, velocity := ⟨0, 0⟩, acceleration := ⟨0, 0⟩,
    mass := 1, charge := -5, radius := 22, isLocked := false, trail := [], trailTimer := 0 }

def eW9 : PhysicsEngine :=
  { objects := [oW9A, oW9B], friction := 0.01, bounds := { width := 800, height := 600 } }

/-- C9 witness: coincident particles at the canvas center separated to
distance 100 along the horizontal direction. -/
theorem setDistance_coincident_witness :
    eW9.objects = oW9A :: oW9B :: [] ∧ oW9A.position = oW9B.position ∧
    (∃ objA1 objB1,
      (eW9.setDistance 100).objects = objA1 :: objB1 :: ([] : List ChargedObject) ∧
      objA1.position = ⟨oW9B.position.x - 100 / 2, oW9B.position.y⟩ ∧
      objB1.position = ⟨oW9B.position.x + 100 / 2, oW9B.position.y⟩ ∧
      objB1.position.subtract objA1.position = ⟨100, 0⟩) := by
  refine ⟨rfl, rfl, setDistance_coincident eW9 100 oW9A oW9B [] rfl rfl ?_ ?_⟩
  · simp only [inBoundsP, eW9, oW9A, oW9B]
    norm_num
  · simp only [inBoundsP, eW9, oW9A, oW9B]
    norm_num

def oC9A : ChargedObject :=
  { id := "a9c", position := ⟨400, 0⟩, velocity := ⟨0, 0⟩, acceleration := ⟨0, 0⟩,
    mass := 1, charge := 5, radius := 22, isLocked := false, trail := [], trailTimer := 0 }

def oC9B : ChargedObject :=
  { id := "b9c", position := ⟨400, 0⟩, velocity := ⟨0, 0⟩, acceleration := ⟨0, 0⟩,
    mass := 1, charge := -5, radius := 30, isLocked := false, trail := [], trailTimer := 0 }

def eC9 : PhysicsEngine :=
  { objects := [oC9A, oC9B], friction := 0.01, bounds := { width := 800, height := 600 } }

/-- C9 counterexample: coincident particles at y = 0 with different
radii: resolveBounds clamps them to different y values (22 and 30), so
the final positions are not separated along the horizontal direction. -/
theorem setDistance_coincident_cex :
    ∃ objA1 objB1, (eC9.setDistance 100).objects = objA1 :: objB1 :: ([] : List ChargedObject) ∧
      objA1.position.y ≠ objB1.position.y := by
  have hchar := setDistance_objects eC9 100 oC9A oC9B [] rfl
  have hdir : sepDir oC9A oC9B = ⟨1, 0⟩ := sepDir_coincident oC9A oC9B rfl
  have hcen : sepCenter oC9A oC9B = ⟨400, 0⟩ := by
    simp only [sepCenter, oC9A, oC9B, Vector2.add, Vector2.multiply]
    norm_num
  have hpA : sepPosA oC9A oC9B 100 = ⟨350, 0⟩ := by
    rw [sepPosA, hdir, hcen]
    simp only [Vector2.subtract, Vector2.multiply]
    norm_num
  have hpB : sepPosB oC9A oC9B 100 = ⟨450, 0⟩ := by
    rw [sepPosB, hdir, hcen]
    simp only [Vector2.add, Vector2.multiply]
    norm_num
  rw [hpA, hpB] at hchar
  have hposA : (resolveBounds eC9.bounds (repositioned oC9A ⟨350, 0⟩)).position
      = ⟨350, 22⟩ := by
    have hcl := resolveBounds_clamp_low_y eC9.bounds (repositioned oC9A ⟨350, 0⟩)
      (by norm_num [repositioned, oC9A]) (by norm_num [repositioned, oC9A, eC9])
      (by norm_num [repositioned, oC9A])
    rw [hcl]
    norm_num [repositioned, oC9A]
  have hposB : (resolveBounds eC9.bounds (repositioned oC9B ⟨450, 0⟩)).position
      = ⟨450, 30⟩ := by
    have hcl := resolveBounds_clamp_low_y eC9.bounds (repositioned oC9B ⟨450, 0⟩)
      (by norm_num [repositioned, oC9B]) (by norm_num [repositioned, oC9B, eC9])
      (by norm_num [repositioned, oC9B])
    rw [hcl]
    norm_num [repositioned, oC9B]
  refine ⟨_, _, hchar, ?_⟩
  rw [hposA, hposB]
  show (22:ℝ) ≠ 30
  norm_num
